import Mathlib

/-!
# Verification of the binaryseeker cursor-based binary reader/writer

Shallow embedding of `src/writer.ts` (`BinaryWriter`) and the reader module
(`BinaryReader`).  Buffers are byte lists (`List Nat`, each element a byte
value below 256).  JavaScript `number`/`bigint` arguments are embedded as
`Int`; `DataView` setters truncate modulo `2 ^ (8 * width)` exactly as the
ECMAScript `SetValueInDataView` conversion does.  IEEE-754 float values are
represented by their bit patterns (a `setFloat32`/`getFloat32` pair moves
4 bytes of the pattern; the numeric value of a pattern is recovered by the
separate decode function `float32DecodeQ`).  Fallible reads (`DataView`
getters throw `RangeError` out of bounds) return `Option`.
-/

namespace BinarySeeker

/-- Little-endian byte decomposition of a natural number into `k` bytes. -/
def toBytesLE : Nat → Nat → List Nat
  | 0, _ => []
  | k + 1, n => n % 256 :: toBytesLE k (n / 256)

/-- Recombine a little-endian byte list into a natural number. -/
def ofBytesLE : List Nat → Nat
  | [] => 0
  | b :: bs => b + 256 * ofBytesLE bs

/-- Byte image produced by a `DataView` setter of byte width `k`: the value is
converted modulo `2 ^ (8 * k)` (ECMAScript `ToUint8`/`ToUint16`/… — signed and
unsigned setters store the same two's-complement bytes), little-endian. -/
def intToBytesLE (k : Nat) (v : Int) : List Nat :=
  toBytesLE k (v % ((2 : Int) ^ (8 * k))).toNat

/-- Two's-complement reinterpretation performed by signed `DataView` getters
of byte width `k`. -/
def toSigned (k : Nat) (n : Nat) : Int :=
  if n < 2 ^ (8 * k - 1) then (n : Int) else (n : Int) - 2 ^ (8 * k)

/-- UTF-8 encoding of one character (`TextEncoder` semantics). -/
def utf8EncodeChar (c : Char) : List Nat :=
  let n := c.toNat
  if n < 128 then [n]
  else if n < 2048 then [192 + n / 64, 128 + n % 64]
  else if n < 65536 then [224 + n / 4096, 128 + n / 64 % 64, 128 + n % 64]
  else [240 + n / 262144, 128 + n / 4096 % 64, 128 + n / 64 % 64, 128 + n % 64]

/-- UTF-8 encoding of a string (`TextEncoder().encode`). -/
def utf8Encode (s : String) : List Nat :=
  s.data.foldr (fun c acc => utf8EncodeChar c ++ acc) []

/-- Numeric value (as an exact rational) of an IEEE-754 binary32 bit pattern;
`none` for the infinity/NaN exponent.  For a normal pattern with exponent `e`
and fraction `f` this is `±(1 + f/2^23) · 2^(e-127) = ±(2^23 + f) · 2^e / 2^150`. -/
def float32DecodeQ (bits : Nat) : Option ℚ :=
  let s : Nat := bits / 2 ^ 31 % 2
  let e : Nat := bits / 2 ^ 23 % 256
  let f : Nat := bits % 2 ^ 23
  let sign : ℚ := if s = 1 then -1 else 1
  if e = 255 then none
  else if e = 0 then some (sign * f * 2 / 2 ^ 150)
  else some (sign * (2 ^ 23 + f) * 2 ^ e / 2 ^ 150)

/-- Number kinds accepted by the generic `read`/`write` dispatchers. -/
inductive NumKind
  | u32 | u16 | i32 | i16 | f32 | f64 | u8 | i8
deriving DecidableEq, Repr

/-- Endianness tag of the generic dispatchers. -/
inductive Endian
  | le | be
deriving DecidableEq, Repr

/-- In-range predicate for each kind: the set of values the corresponding
JavaScript number type can carry exactly (float kinds range over their 32-
resp. 64-bit IEEE-754 bit patterns). -/
def InRange (kind : NumKind) (v : Int) : Prop :=
  match kind with
  | .u8 => 0 ≤ v ∧ v < 2 ^ 8
  | .i8 => -2 ^ 7 ≤ v ∧ v < 2 ^ 7
  | .u16 => 0 ≤ v ∧ v < 2 ^ 16
  | .i16 => -2 ^ 15 ≤ v ∧ v < 2 ^ 15
  | .u32 => 0 ≤ v ∧ v < 2 ^ 32
  | .i32 => -2 ^ 31 ≤ v ∧ v < 2 ^ 31
  | .f32 => 0 ≤ v ∧ v < 2 ^ 32
  | .f64 => 0 ≤ v ∧ v < 2 ^ 64

/-- State of `BinaryWriter` (src/writer.ts): backing buffer `#data` (its length
is the capacity), write cursor `#cursor`, and high-water mark `#maxCursor`. -/
structure BinaryWriter where
  data : List Nat
  cursor : Nat
  maxCursor : Nat
deriving DecidableEq, Repr

namespace BinaryWriter

/-- `new BinaryWriter(initialSize)`: zero-filled buffer, cursor and
high-water mark at 0 (default `initialSize` is 256). -/
def new (initialSize : Nat) : BinaryWriter :=
  { data := List.replicate initialSize 0, cursor := 0, maxCursor := 0 }

/-- `extendBuffer(length)`: allocate a zero-filled buffer of the given length
and copy the existing bytes into its prefix.  (Every call site passes
`length > data.length`; `Uint8Array.set` would throw otherwise.) -/
def extendBuffer (w : BinaryWriter) (length : Nat) : BinaryWriter :=
  { w with data := w.data ++ List.replicate (length - w.data.length) 0 }

/-- `preWrite(size)`: grow the buffer if `cursor + size` exceeds the capacity.
`size` is an `Int` because `seek` passes `offset - cursor`, which can be
negative in JavaScript arithmetic. -/
def preWrite (w : BinaryWriter) (size : Int) : BinaryWriter :=
  if (w.cursor : Int) + size > (w.data.length : Int) then
    let candidate : Int :=
      if (w.data.length : Int) ≥ 2048 then (w.data.length : Int) + 2048
      else (w.data.length : Int) * 2
    let newSize : Int :=
      if (w.cursor : Int) + size > candidate then (w.cursor : Int) + size
      else candidate
    w.extendBuffer newSize.toNat
  else w

/-- `postWrite(size)`: advance the cursor and raise the high-water mark. -/
def postWrite (w : BinaryWriter) (size : Nat) : BinaryWriter :=
  let c := w.cursor + size
  { w with cursor := c, maxCursor := if c > w.maxCursor then c else w.maxCursor }

/-- Store a byte list into the buffer at `offset` (the effect of a `DataView`
setter / `Uint8Array` element stores; bounds are guaranteed by `preWrite`). -/
def setBytes (w : BinaryWriter) (offset : Nat) (bs : List Nat) : BinaryWriter :=
  { w with data := w.data.take offset ++ bs ++ w.data.drop (offset + bs.length) }

/-- Common shape of every write method: `preWrite(n)`, store the `n` bytes at
the cursor, `postWrite(n)`. -/
def writeRaw (w : BinaryWriter) (bs : List Nat) : BinaryWriter :=
  let w1 := w.preWrite bs.length
  let w2 := w1.setBytes w1.cursor bs
  w2.postWrite bs.length

/-- `writeUInt8`: `setUint8(cursor, value)` stores `value mod 2^8`. -/
def writeUInt8 (w : BinaryWriter) (value : Int) : BinaryWriter :=
  w.writeRaw (intToBytesLE 1 value)

/-- `writeInt8`: the `Uint8Array` element store performs the same `ToUint8`
conversion, so the stored byte equals the unsigned one. -/
def writeInt8 (w : BinaryWriter) (value : Int) : BinaryWriter :=
  w.writeRaw (intToBytesLE 1 value)

/-- `writeUInt16LE` (`setUint16` little-endian). -/
def writeUInt16LE (w : BinaryWriter) (value : Int) : BinaryWriter :=
  w.writeRaw (intToBytesLE 2 value)

/-- `writeUInt16BE` (`setUint16` big-endian: most significant byte first). -/
def writeUInt16BE (w : BinaryWriter) (value : Int) : BinaryWriter :=
  w.writeRaw (intToBytesLE 2 value).reverse

/-- `writeInt16LE` (`setInt16` stores the same two's-complement bytes). -/
def writeInt16LE (w : BinaryWriter) (value : Int) : BinaryWriter :=
  w.writeRaw (intToBytesLE 2 value)

/-- `writeInt16BE`. -/
def writeInt16BE (w : BinaryWriter) (value : Int) : BinaryWriter :=
  w.writeRaw (intToBytesLE 2 value).reverse

/-- `writeUInt32LE`. -/
def writeUInt32LE (w : BinaryWriter) (value : Int) : BinaryWriter :=
  w.writeRaw (intToBytesLE 4 value)

/-- `writeUInt32BE`. -/
def writeUInt32BE (w : BinaryWriter) (value : Int) : BinaryWriter :=
  w.writeRaw (intToBytesLE 4 value).reverse

/-- `writeInt32LE`. -/
def writeInt32LE (w : BinaryWriter) (value : Int) : BinaryWriter :=
  w.writeRaw (intToBytesLE 4 value)

/-- `writeInt32BE`. -/
def writeInt32BE (w : BinaryWriter) (value : Int) : BinaryWriter :=
  w.writeRaw (intToBytesLE 4 value).reverse

/-- `writeUInt64LE` (`setBigUint64`; the `bigint` argument is an `Int`). -/
def writeUInt64LE (w : BinaryWriter) (value : Int) : BinaryWriter :=
  w.writeRaw (intToBytesLE 8 value)

/-- `writeUInt64BE`. -/
def writeUInt64BE (w : BinaryWriter) (value : Int) : BinaryWriter :=
  w.writeRaw (intToBytesLE 8 value).reverse

/-- `writeInt64LE`. -/
def writeInt64LE (w : BinaryWriter) (value : Int) : BinaryWriter :=
  w.writeRaw (intToBytesLE 8 value)

/-- `writeInt64BE`. -/
def writeInt64BE (w : BinaryWriter) (value : Int) : BinaryWriter :=
  w.writeRaw (intToBytesLE 8 value).reverse

/-- `writeFloat32LE`: `setFloat32` stores the 4 bytes of the value's IEEE-754
bit pattern, least significant first.  The argument is the bit pattern. -/
def writeFloat32LE (w : BinaryWriter) (value : Int) : BinaryWriter :=
  w.writeRaw (intToBytesLE 4 value)

/-- `writeFloat32BE`. -/
def writeFloat32BE (w : BinaryWriter) (value : Int) : BinaryWriter :=
  w.writeRaw (intToBytesLE 4 value).reverse

/-- `writeFloat64LE` (8 bytes of the binary64 bit pattern). -/
def writeFloat64LE (w : BinaryWriter) (value : Int) : BinaryWriter :=
  w.writeRaw (intToBytesLE 8 value)

/-- `writeFloat64BE`. -/
def writeFloat64BE (w : BinaryWriter) (value : Int) : BinaryWriter :=
  w.writeRaw (intToBytesLE 8 value).reverse

/-- `writeFloat32`: the source defines it as an alias calling `writeFloat32LE`. -/
def writeFloat32 (w : BinaryWriter) (value : Int) : BinaryWriter :=
  w.writeFloat32LE value

/-- `writeFloat64`: the source defines it as an alias calling `writeFloat64LE`. -/
def writeFloat64 (w : BinaryWriter) (value : Int) : BinaryWriter :=
  w.writeFloat64LE value

/-- `writeString`: UTF-8 bytes of the text followed by a single zero
terminator; one `preWrite`/`postWrite` pair of width `bytes.length + 1`.
The element stores apply the `Uint8Array` `ToUint8` conversion. -/
def writeString (w : BinaryWriter) (value : String) : BinaryWriter :=
  w.writeRaw ((utf8Encode value).map (· % 256) ++ [0])

/-- `writeBytes`: copy a byte array verbatim (`Uint8Array` elements are bytes;
the `% 256` embeds that constraint). -/
def writeBytes (w : BinaryWriter) (value : List Nat) : BinaryWriter :=
  w.writeRaw (value.map (· % 256))

/-- `writeChars`: UTF-8 bytes of the text, no terminator. -/
def writeChars (w : BinaryWriter) (value : String) : BinaryWriter :=
  w.writeRaw ((utf8Encode value).map (· % 256))

/-- `seek(offset)`: `preWrite(offset - cursor)`, reposition the cursor, then
`postWrite(0)`. -/
def seek (w : BinaryWriter) (offset : Nat) : BinaryWriter :=
  let w1 := w.preWrite ((offset : Int) - (w.cursor : Int))
  let w2 := { w1 with cursor := offset }
  w2.postWrite 0

/-- `toUint8Array()`: a fresh copy of `data.slice(0, maxCursor)`. -/
def toUint8Array (w : BinaryWriter) : List Nat :=
  w.data.take w.maxCursor

/-- `ensureSize(size)`: grow to `size` if the capacity is smaller; return the
resulting capacity together with the resulting state. -/
def ensureSize (w : BinaryWriter) (size : Nat) : Nat × BinaryWriter :=
  let w1 := if w.data.length < size then w.extendBuffer size else w
  (w1.data.length, w1)

/-- The `capacity` getter (`data.byteLength`). -/
def capacity (w : BinaryWriter) : Nat :=
  w.data.length

/-- The `length` getter (`maxCursor`). -/
def length (w : BinaryWriter) : Nat :=
  w.maxCursor

/-- The generic `write(value, kind, endian)` dispatcher. -/
def write (w : BinaryWriter) (value : Int) (kind : NumKind) (endian : Endian) :
    BinaryWriter :=
  match kind with
  | .u8 => w.writeUInt8 value
  | .i8 => w.writeInt8 value
  | .u32 =>
    match endian with
    | .le => w.writeUInt32LE value
    | .be => w.writeUInt32BE value
  | .u16 =>
    match endian with
    | .le => w.writeUInt16LE value
    | .be => w.writeUInt16BE value
  | .i32 =>
    match endian with
    | .le => w.writeInt32LE value
    | .be => w.writeInt32BE value
  | .i16 =>
    match endian with
    | .le => w.writeInt16LE value
    | .be => w.writeInt16BE value
  | .f32 =>
    match endian with
    | .le => w.writeFloat32LE value
    | .be => w.writeFloat32BE value
  | .f64 =>
    match endian with
    | .le => w.writeFloat64LE value
    | .be => w.writeFloat64BE value

end BinaryWriter

/-- State of `BinaryReader`: the `DataView` over the source buffer and the
read cursor. -/
structure BinaryReader where
  data : List Nat
  cursor : Nat
deriving DecidableEq, Repr

namespace BinaryReader

/-- `new BinaryReader(data)`. -/
def new (data : List Nat) : BinaryReader :=
  { data := data, cursor := 0 }

/-- `seek(offset)`. -/
def seek (r : BinaryReader) (offset : Nat) : BinaryReader :=
  { r with cursor := offset }

/-- A `DataView` getter of byte width `k` at the cursor: `RangeError` (here
`none`) when `cursor + k` exceeds the buffer length, else the `k` bytes. -/
def getBytes (r : BinaryReader) (k : Nat) : Option (List Nat) :=
  if r.cursor + k ≤ r.data.length then some ((r.data.drop r.cursor).take k)
  else none

/-- Common shape of every fixed-width read: get `k` bytes at the cursor and
advance the cursor by `k`. -/
def readRaw (r : BinaryReader) (k : Nat) : Option (List Nat × BinaryReader) :=
  (r.getBytes k).map fun bs => (bs, { r with cursor := r.cursor + k })

/-- `readUInt8`. -/
def readUInt8 (r : BinaryReader) : Option (Int × BinaryReader) :=
  (r.readRaw 1).map fun p => ((ofBytesLE p.1 : Int), p.2)

/-- `readInt8` (`getInt8`: two's-complement byte). -/
def readInt8 (r : BinaryReader) : Option (Int × BinaryReader) :=
  (r.readRaw 1).map fun p => (toSigned 1 (ofBytesLE p.1), p.2)

/-- `readUInt16LE`. -/
def readUInt16LE (r : BinaryReader) : Option (Int × BinaryReader) :=
  (r.readRaw 2).map fun p => ((ofBytesLE p.1 : Int), p.2)

/-- `readUInt16BE`. -/
def readUInt16BE (r : BinaryReader) : Option (Int × BinaryReader) :=
  (r.readRaw 2).map fun p => ((ofBytesLE p.1.reverse : Int), p.2)

/-- `readInt16LE`. -/
def readInt16LE (r : BinaryReader) : Option (Int × BinaryReader) :=
  (r.readRaw 2).map fun p => (toSigned 2 (ofBytesLE p.1), p.2)

/-- `readInt16BE`. -/
def readInt16BE (r : BinaryReader) : Option (Int × BinaryReader) :=
  (r.readRaw 2).map fun p => (toSigned 2 (ofBytesLE p.1.reverse), p.2)

/-- `readUInt32LE`. -/
def readUInt32LE (r : BinaryReader) : Option (Int × BinaryReader) :=
  (r.readRaw 4).map fun p => ((ofBytesLE p.1 : Int), p.2)

/-- `readUInt32BE`. -/
def readUInt32BE (r : BinaryReader) : Option (Int × BinaryReader) :=
  (r.readRaw 4).map fun p => ((ofBytesLE p.1.reverse : Int), p.2)

/-- `readInt32LE`. -/
def readInt32LE (r : BinaryReader) : Option (Int × BinaryReader) :=
  (r.readRaw 4).map fun p => (toSigned 4 (ofBytesLE p.1), p.2)

/-- `readInt32BE`. -/
def readInt32BE (r : BinaryReader) : Option (Int × BinaryReader) :=
  (r.readRaw 4).map fun p => (toSigned 4 (ofBytesLE p.1.reverse), p.2)

/-- `readUInt64LE` (`getBigUint64`). -/
def readUInt64LE (r : BinaryReader) : Option (Int × BinaryReader) :=
  (r.readRaw 8).map fun p => ((ofBytesLE p.1 : Int), p.2)

/-- `readUInt64BE`. -/
def readUInt64BE (r : BinaryReader) : Option (Int × BinaryReader) :=
  (r.readRaw 8).map fun p => ((ofBytesLE p.1.reverse : Int), p.2)

/-- `readInt64LE` (`getBigInt64`). -/
def readInt64LE (r : BinaryReader) : Option (Int × BinaryReader) :=
  (r.readRaw 8).map fun p => (toSigned 8 (ofBytesLE p.1), p.2)

/-- `readInt64BE`. -/
def readInt64BE (r : BinaryReader) : Option (Int × BinaryReader) :=
  (r.readRaw 8).map fun p => (toSigned 8 (ofBytesLE p.1.reverse), p.2)

/-- `readFloat32LE`: 4 bytes combined little-endian into the bit pattern. -/
def readFloat32LE (r : BinaryReader) : Option (Int × BinaryReader) :=
  (r.readRaw 4).map fun p => ((ofBytesLE p.1 : Int), p.2)

/-- `readFloat32BE`. -/
def readFloat32BE (r : BinaryReader) : Option (Int × BinaryReader) :=
  (r.readRaw 4).map fun p => ((ofBytesLE p.1.reverse : Int), p.2)

/-- `readFloat64LE`. -/
def readFloat64LE (r : BinaryReader) : Option (Int × BinaryReader) :=
  (r.readRaw 8).map fun p => ((ofBytesLE p.1 : Int), p.2)

/-- `readFloat64BE`. -/
def readFloat64BE (r : BinaryReader) : Option (Int × BinaryReader) :=
  (r.readRaw 8).map fun p => ((ofBytesLE p.1.reverse : Int), p.2)

/-- `readFloat32`: the source defines it as reading big-endian (`getFloat32`
with `littleEndian = false`). -/
def readFloat32 (r : BinaryReader) : Option (Int × BinaryReader) :=
  r.readFloat32BE

/-- `readFloat64`: the source defines it as reading big-endian. -/
def readFloat64 (r : BinaryReader) : Option (Int × BinaryReader) :=
  r.readFloat64BE

/-- `readString`, byte-gathering loop: bytes before the first zero byte of the
list, `none` when the source is exhausted first (`getUint8` throws). -/
def readStringBytes : List Nat → Option (List Nat)
  | [] => none
  | b :: rest =>
    if b = 0 then some [] else (readStringBytes rest).map fun bs => b :: bs

/-- `readString`: read bytes up to (and consuming) the zero terminator; the
returned bytes are the UTF-8 code units of the decoded text. -/
def readString (r : BinaryReader) : Option (List Nat × BinaryReader) :=
  (readStringBytes (r.data.drop r.cursor)).map fun bs =>
    (bs, { r with cursor := r.cursor + bs.length + 1 })

/-- `readBytes(length)`: per-index `getUint8` loop; a zero-length read never
faults (the loop body does not execute). -/
def readBytes (r : BinaryReader) (length : Nat) : Option (List Nat × BinaryReader) :=
  if length = 0 then some ([], { r with cursor := r.cursor + length })
  else r.readRaw length

/-- `hasMoreData`. -/
def hasMoreData (r : BinaryReader) : Bool :=
  r.cursor < r.data.length

/-- The generic `read(kind, endian)` dispatcher. -/
def read (r : BinaryReader) (kind : NumKind) (endian : Endian) :
    Option (Int × BinaryReader) :=
  match kind with
  | .u8 => r.readUInt8
  | .i8 => r.readInt8
  | .u32 =>
    match endian with
    | .le => r.readUInt32LE
    | .be => r.readUInt32BE
  | .u16 =>
    match endian with
    | .le => r.readUInt16LE
    | .be => r.readUInt16BE
  | .i32 =>
    match endian with
    | .le => r.readInt32LE
    | .be => r.readInt32BE
  | .i16 =>
    match endian with
    | .le => r.readInt16LE
    | .be => r.readInt16BE
  | .f32 =>
    match endian with
    | .le => r.readFloat32LE
    | .be => r.readFloat32BE
  | .f64 =>
    match endian with
    | .le => r.readFloat64LE
    | .be => r.readFloat64BE

end BinaryReader

/-- Structural invariant of the writer: the high-water mark never exceeds the
capacity (`capacity >= maxCursor`). -/
def BinaryWriter.Inv (w : BinaryWriter) : Prop :=
  w.maxCursor ≤ w.data.length

/-- The three state properties the spec demands of a write operation:
it preserves the invariant, never shrinks the capacity, and sets the
high-water mark to the maximum of its previous value and the new cursor. -/
def WriteOpOk (f : BinaryWriter → BinaryWriter) : Prop :=
  ∀ w : BinaryWriter,
    (w.Inv → (f w).Inv) ∧
    w.capacity ≤ (f w).capacity ∧
    (f w).maxCursor = max w.maxCursor (f w).cursor

/-! ## Byte-level encode/decode lemmas -/

theorem length_toBytesLE (k n : Nat) : (toBytesLE k n).length = k := by
  induction k generalizing n with
  | zero => rfl
  | succ k ih => simp [toBytesLE, ih]

theorem ofBytesLE_toBytesLE (k n : Nat) :
    ofBytesLE (toBytesLE k n) = n % 256 ^ k := by
  induction k generalizing n with
  | zero => simp [toBytesLE, ofBytesLE, Nat.mod_one]
  | succ k ih =>
    simp only [toBytesLE, ofBytesLE, ih]
    rw [pow_succ, mul_comm (256 ^ k) 256, Nat.mod_mul]

theorem length_intToBytesLE (k : Nat) (v : Int) :
    (intToBytesLE k v).length = k :=
  length_toBytesLE k _

theorem cast_two_pow (m : Nat) : ((2 ^ m : Nat) : Int) = (2 : Int) ^ m := by
  push_cast
  ring

theorem two_pow_bytes (k : Nat) : (256 : Nat) ^ k = 2 ^ (8 * k) := by
  rw [show (256 : Nat) = 2 ^ 8 by norm_num, ← pow_mul]

theorem ofBytesLE_intToBytesLE (k : Nat) (v : Int) (h0 : 0 ≤ v)
    (h1 : v < 2 ^ (8 * k)) :
    (ofBytesLE (intToBytesLE k v) : Int) = v := by
  have hM := cast_two_pow (8 * k)
  unfold intToBytesLE
  rw [ofBytesLE_toBytesLE, two_pow_bytes]
  have he : v % ((2 : Int) ^ (8 * k)) = v := Int.emod_eq_of_lt h0 h1
  rw [he]
  have hlt : v.toNat < 2 ^ (8 * k) := by omega
  rw [Nat.mod_eq_of_lt hlt]
  omega

theorem toSigned_intToBytesLE (k : Nat) (hk : 0 < k) (v : Int)
    (h0 : -2 ^ (8 * k - 1) ≤ v) (h1 : v < 2 ^ (8 * k - 1)) :
    toSigned k (ofBytesLE (intToBytesLE k v)) = v := by
  have hM := cast_two_pow (8 * k)
  have hH := cast_two_pow (8 * k - 1)
  have hsplit : (2 : Int) ^ (8 * k) = 2 ^ (8 * k - 1) * 2 := by
    rw [← pow_succ]
    congr 1
    omega
  have hA : (0 : Int) < 2 ^ (8 * k - 1) := pow_pos (by norm_num) _
  have hme : v % ((2 : Int) ^ (8 * k)) = if 0 ≤ v then v else v + 2 ^ (8 * k) := by
    split_ifs with hs
    · refine Int.emod_eq_of_lt hs ?_
      omega
    · have h2 : (v + 2 ^ (8 * k)) % ((2 : Int) ^ (8 * k)) = v + 2 ^ (8 * k) := by
        refine Int.emod_eq_of_lt ?_ ?_ <;> omega
      have h3 : (v + 2 ^ (8 * k) * 1) % ((2 : Int) ^ (8 * k)) = v % ((2 : Int) ^ (8 * k)) :=
        Int.add_mul_emod_self_left v (2 ^ (8 * k)) 1
      rw [mul_one] at h3
      rw [← h3, h2]
  unfold toSigned intToBytesLE
  rw [ofBytesLE_toBytesLE, two_pow_bytes, hme]
  split_ifs with hs hcond hcond
  · have hlt : v.toNat < 2 ^ (8 * k) := by omega
    rw [Nat.mod_eq_of_lt hlt] at hcond ⊢
    omega
  · have hlt : v.toNat < 2 ^ (8 * k) := by omega
    rw [Nat.mod_eq_of_lt hlt] at hcond ⊢
    omega
  · have hlt : (v + 2 ^ (8 * k)).toNat < 2 ^ (8 * k) := by omega
    rw [Nat.mod_eq_of_lt hlt] at hcond ⊢
    omega
  · have hlt : (v + 2 ^ (8 * k)).toNat < 2 ^ (8 * k) := by omega
    rw [Nat.mod_eq_of_lt hlt] at hcond ⊢
    omega

/-! ## Generic take/drop slicing -/

theorem drop_take_slice {α : Type} (l : List α) (M c k : Nat) (h : c + k ≤ M) :
    ((l.take M).drop c).take k = (l.drop c).take k := by
  rw [List.drop_take, List.take_take]
  congr 1
  omega

/-! ## Writer state lemmas -/

namespace BinaryWriter

theorem extendBuffer_data (w : BinaryWriter) (n : Nat) :
    (w.extendBuffer n).data = w.data ++ List.replicate (n - w.data.length) 0 := rfl

theorem preWrite_cursor (w : BinaryWriter) (s : Int) :
    (w.preWrite s).cursor = w.cursor := by
  simp only [preWrite, extendBuffer]
  split <;> rfl

theorem preWrite_maxCursor (w : BinaryWriter) (s : Int) :
    (w.preWrite s).maxCursor = w.maxCursor := by
  simp only [preWrite, extendBuffer]
  split <;> rfl

theorem preWrite_data (w : BinaryWriter) (s : Int) :
    ∃ m, (w.preWrite s).data = w.data ++ List.replicate m 0 := by
  simp only [preWrite, extendBuffer]
  split
  · exact ⟨_, rfl⟩
  · exact ⟨0, by simp⟩

theorem preWrite_length_mono (w : BinaryWriter) (s : Int) :
    w.data.length ≤ (w.preWrite s).data.length := by
  obtain ⟨m, hm⟩ := preWrite_data w s
  rw [hm, List.length_append]
  omega

theorem preWrite_covers (w : BinaryWriter) (s : Int) :
    ((w.cursor : Int) + s).toNat ≤ (w.preWrite s).data.length := by
  simp only [preWrite]
  repeat' split
  all_goals try simp only [extendBuffer_data, List.length_append, List.length_replicate]
  all_goals omega

theorem preWrite_covers_nat (w : BinaryWriter) (k : Nat) :
    w.cursor + k ≤ (w.preWrite (k : Int)).data.length := by
  have h := preWrite_covers w (k : Int)
  omega

theorem setBytes_cursor (w : BinaryWriter) (o : Nat) (bs : List Nat) :
    (w.setBytes o bs).cursor = w.cursor := rfl

theorem setBytes_maxCursor (w : BinaryWriter) (o : Nat) (bs : List Nat) :
    (w.setBytes o bs).maxCursor = w.maxCursor := rfl

theorem setBytes_length (w : BinaryWriter) (o : Nat) (bs : List Nat)
    (h : o + bs.length ≤ w.data.length) :
    (w.setBytes o bs).data.length = w.data.length := by
  simp only [setBytes, List.length_append, List.length_take, List.length_drop]
  omega

theorem setBytes_slice (w : BinaryWriter) (o : Nat) (bs : List Nat)
    (h : o ≤ w.data.length) :
    (((w.setBytes o bs).data).drop o).take bs.length = bs := by
  simp only [setBytes]
  rw [List.append_assoc, List.drop_left' (by rw [List.length_take]; omega)]
  exact List.take_left' rfl

theorem writeRaw_cursor (w : BinaryWriter) (bs : List Nat) :
    (w.writeRaw bs).cursor = w.cursor + bs.length := by
  simp only [writeRaw, postWrite, setBytes_cursor, preWrite_cursor]

theorem writeRaw_maxCursor (w : BinaryWriter) (bs : List Nat) :
    (w.writeRaw bs).maxCursor = max w.maxCursor (w.cursor + bs.length) := by
  simp only [writeRaw, postWrite, setBytes_cursor, preWrite_cursor,
    setBytes_maxCursor, preWrite_maxCursor]
  split <;> omega

theorem writeRaw_data_length (w : BinaryWriter) (bs : List Nat) :
    (w.writeRaw bs).data.length = (w.preWrite (bs.length : Int)).data.length := by
  simp only [writeRaw, postWrite]
  exact setBytes_length _ _ _
    (by rw [preWrite_cursor]; exact preWrite_covers_nat w bs.length)

theorem writeRaw_length_mono (w : BinaryWriter) (bs : List Nat) :
    w.data.length ≤ (w.writeRaw bs).data.length := by
  rw [writeRaw_data_length]
  exact preWrite_length_mono w _

theorem writeRaw_covers (w : BinaryWriter) (bs : List Nat) :
    w.cursor + bs.length ≤ (w.writeRaw bs).data.length := by
  rw [writeRaw_data_length]
  exact preWrite_covers_nat w bs.length

theorem writeRaw_slice (w : BinaryWriter) (bs : List Nat) :
    (((w.writeRaw bs).data).drop w.cursor).take bs.length = bs := by
  simp only [writeRaw, postWrite]
  rw [show ((w.preWrite (bs.length : Int)).setBytes
      (w.preWrite (bs.length : Int)).cursor bs).data
    = ((w.preWrite (bs.length : Int)).setBytes w.cursor bs).data by
      rw [preWrite_cursor]]
  exact setBytes_slice _ _ _ (by
    have h := preWrite_covers_nat w bs.length
    omega)

theorem writeRaw_export_slice (w : BinaryWriter) (bs : List Nat) :
    (((w.writeRaw bs).toUint8Array).drop w.cursor).take bs.length = bs := by
  rw [toUint8Array, drop_take_slice _ _ _ _
    (by rw [writeRaw_maxCursor]; omega)]
  exact writeRaw_slice w bs

theorem writeRaw_export_length (w : BinaryWriter) (bs : List Nat) :
    w.cursor + bs.length ≤ ((w.writeRaw bs).toUint8Array).length := by
  rw [toUint8Array, List.length_take, writeRaw_maxCursor]
  have h := writeRaw_covers w bs
  omega

theorem writeRaw_inv (w : BinaryWriter) (bs : List Nat) (h : w.Inv) :
    (w.writeRaw bs).Inv := by
  unfold Inv at h ⊢
  rw [writeRaw_maxCursor]
  have h1 := writeRaw_covers w bs
  have h2 := writeRaw_length_mono w bs
  omega

theorem writeRaw_ok (bs : List Nat) : WriteOpOk (fun w => w.writeRaw bs) := by
  intro w
  refine ⟨writeRaw_inv w bs, writeRaw_length_mono w bs, ?_⟩
  rw [writeRaw_maxCursor, writeRaw_cursor]

theorem seek_cursor (w : BinaryWriter) (offset : Nat) :
    (w.seek offset).cursor = offset := by
  simp only [seek, postWrite]
  omega

theorem seek_maxCursor (w : BinaryWriter) (offset : Nat) :
    (w.seek offset).maxCursor = max w.maxCursor offset := by
  simp only [seek, postWrite, preWrite_maxCursor]
  split <;> omega

theorem seek_data (w : BinaryWriter) (offset : Nat) :
    (w.seek offset).data = (w.preWrite ((offset : Int) - (w.cursor : Int))).data := by
  simp only [seek, postWrite]

theorem seek_length_mono (w : BinaryWriter) (offset : Nat) :
    w.data.length ≤ (w.seek offset).data.length := by
  rw [seek_data]
  exact preWrite_length_mono w _

theorem seek_covers (w : BinaryWriter) (offset : Nat) :
    offset ≤ (w.seek offset).data.length := by
  rw [seek_data]
  have h := preWrite_covers w ((offset : Int) - (w.cursor : Int))
  omega

theorem seek_inv (w : BinaryWriter) (offset : Nat) (h : w.Inv) :
    (w.seek offset).Inv := by
  unfold Inv at h ⊢
  rw [seek_maxCursor]
  have h1 := seek_covers w offset
  have h2 := seek_length_mono w offset
  omega

theorem seek_data_of_le (w : BinaryWriter) (offset : Nat)
    (h : offset ≤ w.data.length) :
    (w.seek offset).data = w.data := by
  rw [seek_data]
  simp only [preWrite]
  rw [if_neg (by omega)]

theorem ensureSize_snd (w : BinaryWriter) (n : Nat) :
    (w.ensureSize n).2 =
      if w.data.length < n then w.extendBuffer n else w := rfl

theorem ensureSize_capacity (w : BinaryWriter) (n : Nat) :
    (w.ensureSize n).2.data.length = max w.data.length n := by
  rw [ensureSize_snd]
  split
  · rw [extendBuffer_data, List.length_append, List.length_replicate]
    omega
  · omega

theorem ensureSize_fst (w : BinaryWriter) (n : Nat) :
    (w.ensureSize n).1 = (w.ensureSize n).2.data.length := rfl

theorem ensureSize_cursor (w : BinaryWriter) (n : Nat) :
    (w.ensureSize n).2.cursor = w.cursor := by
  rw [ensureSize_snd]
  split <;> rfl

theorem ensureSize_maxCursor (w : BinaryWriter) (n : Nat) :
    (w.ensureSize n).2.maxCursor = w.maxCursor := by
  rw [ensureSize_snd]
  split <;> rfl

theorem ensureSize_data (w : BinaryWriter) (n : Nat) :
    ∃ m, (w.ensureSize n).2.data = w.data ++ List.replicate m 0 := by
  rw [ensureSize_snd]
  split
  · exact ⟨_, rfl⟩
  · exact ⟨0, by simp⟩

end BinaryWriter

/-! ## Reader lemmas and the write/read round-trip core -/

namespace BinaryReader

theorem readRaw_of_le (r : BinaryReader) (k : Nat)
    (h : r.cursor + k ≤ r.data.length) :
    r.readRaw k = some ((r.data.drop r.cursor).take k,
      { r with cursor := r.cursor + k }) := by
  simp [readRaw, getBytes, h]

theorem readRaw_isSome (r : BinaryReader) (k : Nat) :
    (r.readRaw k).isSome = true ↔ r.cursor + k ≤ r.data.length := by
  simp only [readRaw, getBytes]
  split <;> simp_all

end BinaryReader

open BinaryWriter BinaryReader in
theorem writeRead_core (w : BinaryWriter) (bs : List Nat) :
    ((BinaryReader.new ((w.writeRaw bs).toUint8Array)).seek w.cursor).readRaw
        bs.length
      = some (bs, ⟨(w.writeRaw bs).toUint8Array, w.cursor + bs.length⟩) := by
  have hlen := writeRaw_export_length w bs
  rw [show (BinaryReader.new ((w.writeRaw bs).toUint8Array)).seek w.cursor
      = ⟨(w.writeRaw bs).toUint8Array, w.cursor⟩ from rfl]
  rw [readRaw_of_le _ _ hlen]
  rw [show (((w.writeRaw bs).toUint8Array).drop w.cursor).take bs.length = bs
    from writeRaw_export_slice w bs]

open BinaryWriter BinaryReader in
theorem writeRead_core' (w : BinaryWriter) (bs : List Nat) (k : Nat)
    (hk : bs.length = k) :
    ((BinaryReader.new ((w.writeRaw bs).toUint8Array)).seek w.cursor).readRaw k
      = some (bs, ⟨(w.writeRaw bs).toUint8Array, w.cursor + k⟩) := by
  subst hk
  exact writeRead_core w bs

theorem isSome_map {α β : Type} (o : Option α) (f : α → β) :
    (o.map f).isSome = o.isSome := by
  cases o <;> rfl

/-! ## Claims -/

set_option maxRecDepth 40000 in
/-- C1, counterexample: the claim says the writer's plain `writeFloat32`
behaves identically to `writeFloat32BE` for every input and buffer state, but
writing the bit pattern of 1.5 through `writeFloat32` produces the
little-endian byte order, which differs from the big-endian one. -/
theorem C1_counterexample :
    ((BinaryWriter.new 4).writeFloat32 0x3FC00000).toUint8Array
      ≠ ((BinaryWriter.new 4).writeFloat32BE 0x3FC00000).toUint8Array := by
  decide

/-- C1 (amended): the reader's plain `readFloat32`/`readFloat64` behave
identically to the big-endian variants, but the writer's plain
`writeFloat32`/`writeFloat64` behave identically to the LITTLE-endian
variants `writeFloat32LE`/`writeFloat64LE` — the bare-float default endianness
of the two components disagrees. -/
theorem C1_amended :
    (∀ r : BinaryReader, r.readFloat32 = r.readFloat32BE
        ∧ r.readFloat64 = r.readFloat64BE)
  ∧ (∀ (w : BinaryWriter) (v : Int), w.writeFloat32 v = w.writeFloat32LE v
        ∧ w.writeFloat64 v = w.writeFloat64LE v) :=
  ⟨fun _ => ⟨rfl, rfl⟩, fun _ _ => ⟨rfl, rfl⟩⟩

set_option maxRecDepth 40000 in
/-- C2, counterexample: the claim says a seek that only repositions the cursor
never changes the exported length, but `seek` ends in `postWrite(0)`, which
raises the high-water mark: on a fresh writer, `seek(8)` alone changes the
export from the empty list to 8 zero bytes. -/
theorem C2_counterexample :
    ((BinaryWriter.new 256).seek 8).toUint8Array
      ≠ (BinaryWriter.new 256).toUint8Array := by
  decide

/-- C2 (amended): `toUint8Array` returns a copy of exactly the first
`maxCursor` bytes of the buffer and its length equals `maxCursor`; it is
unaffected by the allocated capacity (`ensureSize` never changes it), and a
seek to an offset at or below the high-water mark does not change it — but
`seek` participates in the high-water mark as a zero-byte write:
`(w.seek offset).maxCursor = max w.maxCursor offset`, so a forward seek past
the high-water mark does grow the exported length. -/
theorem C2_amended (w : BinaryWriter) (h : w.Inv) :
    w.toUint8Array = w.data.take w.maxCursor
  ∧ w.toUint8Array.length = w.maxCursor
  ∧ (∀ offset, offset ≤ w.maxCursor →
      (w.seek offset).toUint8Array = w.toUint8Array)
  ∧ (∀ offset, (w.seek offset).maxCursor = max w.maxCursor offset)
  ∧ (∀ n, (w.ensureSize n).2.toUint8Array = w.toUint8Array) := by
  unfold BinaryWriter.Inv at h
  refine ⟨rfl, ?_, ?_, fun o => BinaryWriter.seek_maxCursor w o, ?_⟩
  · rw [BinaryWriter.toUint8Array, List.length_take]
    omega
  · intro o ho
    rw [BinaryWriter.toUint8Array, BinaryWriter.toUint8Array,
      BinaryWriter.seek_maxCursor, BinaryWriter.seek_data_of_le w o (by omega)]
    congr 1
    omega
  · intro n
    obtain ⟨m, hm⟩ := BinaryWriter.ensureSize_data w n
    rw [BinaryWriter.toUint8Array, BinaryWriter.toUint8Array,
      BinaryWriter.ensureSize_maxCursor, hm,
      List.take_append_of_le_length (by omega)]

/-- C2 (amended) witness. -/
theorem C2_amended_witness :
    (BinaryWriter.new 4).Inv ∧
    (BinaryWriter.new 4).toUint8Array
      = (BinaryWriter.new 4).data.take (BinaryWriter.new 4).maxCursor := by
  have hInv : (BinaryWriter.new 4).Inv := by
    unfold BinaryWriter.Inv
    decide
  exact ⟨hInv, (C2_amended (BinaryWriter.new 4) hInv).1⟩

/-- C3: whenever a write of byte width `s` finds `cursor + s` beyond the
current capacity, `preWrite` grows the buffer to `capacity + 2048` if the
capacity is at least 2048, else to `2 * capacity`, overridden with exactly
`cursor + s` when that candidate is still smaller; the new buffer is the old
bytes followed by zero fill, and the resulting capacity always covers the
write. -/
theorem C3_growth (w : BinaryWriter) (s : Nat)
    (h : w.capacity < w.cursor + s) :
    (w.preWrite (s : Int)).capacity =
      (if (if 2048 ≤ w.capacity then w.capacity + 2048 else 2 * w.capacity)
            < w.cursor + s
       then w.cursor + s
       else if 2048 ≤ w.capacity then w.capacity + 2048 else 2 * w.capacity)
  ∧ (w.preWrite (s : Int)).data
      = w.data ++ List.replicate ((w.preWrite (s : Int)).capacity - w.capacity) 0
  ∧ w.cursor + s ≤ (w.preWrite (s : Int)).capacity := by
  unfold BinaryWriter.capacity at h ⊢
  have hmain : (w.preWrite (s : Int)).data
      = w.data ++ List.replicate
          ((if (if 2048 ≤ w.data.length then w.data.length + 2048
                else 2 * w.data.length) < w.cursor + s
            then w.cursor + s
            else if 2048 ≤ w.data.length then w.data.length + 2048
                else 2 * w.data.length)
            - w.data.length) 0 := by
    simp only [BinaryWriter.preWrite]
    rw [if_pos (by omega)]
    rw [BinaryWriter.extendBuffer_data]
    congr 2
    repeat' split
    all_goals omega
  have hcap : (w.preWrite (s : Int)).data.length =
      (if (if 2048 ≤ w.data.length then w.data.length + 2048
            else 2 * w.data.length) < w.cursor + s
       then w.cursor + s
       else if 2048 ≤ w.data.length then w.data.length + 2048
            else 2 * w.data.length) := by
    rw [hmain, List.length_append, List.length_replicate]
    repeat' split
    all_goals omega
  refine ⟨hcap, ?_, ?_⟩
  · rw [hcap]
    exact hmain
  · rw [hcap]
    repeat' split
    all_goals omega

/-- C3 witness: the writer state reached in the repository's growth test
(buffer `[1,1,1,0]`, cursor 3) about to perform an 8-byte write. -/
theorem C3_growth_witness :
    (BinaryWriter.mk [1, 1, 1, 0] 3 3).capacity
        < (BinaryWriter.mk [1, 1, 1, 0] 3 3).cursor + 8
  ∧ ((BinaryWriter.mk [1, 1, 1, 0] 3 3).preWrite ((8 : Nat) : Int)).capacity = 11 := by
  refine ⟨by decide, ?_⟩
  have h := (C3_growth (BinaryWriter.mk [1, 1, 1, 0] 3 3) 8 (by decide)).1
  rw [h]
  decide

set_option maxRecDepth 40000 in
/-- C4: starting from initial capacity 2, three single-byte writes of 1 leave
capacity exactly 4 and exported length 3; a subsequent little-endian 64-bit
write of 1 grows capacity to exactly 11 and the export becomes
`[1,1,1,1,0,0,0,0,0,0,0]`. -/
theorem C4_growth_scenario :
    (((((BinaryWriter.new 2).writeUInt8 1).writeUInt8 1).writeUInt8 1).capacity = 4)
  ∧ ((((BinaryWriter.new 2).writeUInt8 1).writeUInt8 1).writeUInt8 1).toUint8Array.length = 3
  ∧ (((((BinaryWriter.new 2).writeUInt8 1).writeUInt8 1).writeUInt8 1).writeUInt64LE 1).capacity = 11
  ∧ (((((BinaryWriter.new 2).writeUInt8 1).writeUInt8 1).writeUInt8 1).writeUInt64LE 1).toUint8Array
      = [1, 1, 1, 1, 0, 0, 0, 0, 0, 0, 0] := by
  decide

set_option maxRecDepth 40000 in
/-- C6: writing `0x12345678` as a 32-bit integer yields `[78 56 34 12]`
little-endian and `[12 34 56 78]` big-endian; the IEEE-754 binary32 pattern
`0x3FC00000` decodes to the value 1.5, and writing it as a 32-bit float yields
`[3f c0 00 00]` big-endian and `[00 00 c0 3f]` little-endian. -/
theorem C6_encodings :
    ((BinaryWriter.new 256).writeUInt32LE 0x12345678).toUint8Array
      = [0x78, 0x56, 0x34, 0x12]
  ∧ ((BinaryWriter.new 256).writeUInt32BE 0x12345678).toUint8Array
      = [0x12, 0x34, 0x56, 0x78]
  ∧ float32DecodeQ 0x3FC00000 = some ((3 : ℚ) / 2)
  ∧ ((BinaryWriter.new 256).writeFloat32BE 0x3FC00000).toUint8Array
      = [0x3f, 0xc0, 0x00, 0x00]
  ∧ ((BinaryWriter.new 256).writeFloat32LE 0x3FC00000).toUint8Array
      = [0x00, 0x00, 0xc0, 0x3f] := by
  refine ⟨by decide, by decide, by norm_num [float32DecodeQ], by decide, by decide⟩

set_option maxRecDepth 40000 in
/-- C7: `writeString "test"` emits exactly the UTF-8 bytes
`[116,101,115,116]` followed by a single zero terminator and advances the
cursor by 5; `readString` over those 5 bytes returns the UTF-8 bytes of
"test" (terminator excluded) with the cursor left at offset 5. -/
theorem C7_string_roundtrip :
    utf8Encode "test" = [116, 101, 115, 116]
  ∧ ((BinaryWriter.new 256).writeString "test").toUint8Array
      = [116, 101, 115, 116, 0]
  ∧ (∀ w : BinaryWriter, (w.writeString "test").cursor = w.cursor + 5)
  ∧ (BinaryReader.new [116, 101, 115, 116, 0]).readString
      = some ([116, 101, 115, 116], ⟨[116, 101, 115, 116, 0], 5⟩) := by
  refine ⟨by decide, by decide, ?_, by decide⟩
  intro w
  exact BinaryWriter.writeRaw_cursor w _

/-- C9: `ensureSize(n)` returns the resulting capacity, which is at least `n`
and at least the previous capacity; it never alters the cursor, the high-water
mark, or the existing buffer content (hence, under the writer invariant, not
the exported snapshot either); and with `n` at most the current capacity it
changes nothing at all. -/
theorem C9_ensureSize (w : BinaryWriter) (n : Nat) :
    (w.ensureSize n).1 = (w.ensureSize n).2.capacity
  ∧ n ≤ (w.ensureSize n).2.capacity
  ∧ w.capacity ≤ (w.ensureSize n).2.capacity
  ∧ (w.ensureSize n).2.cursor = w.cursor
  ∧ (w.ensureSize n).2.maxCursor = w.maxCursor
  ∧ (w.ensureSize n).2.data.take w.capacity = w.data
  ∧ (w.Inv → (w.ensureSize n).2.toUint8Array = w.toUint8Array)
  ∧ (n ≤ w.capacity → (w.ensureSize n).2 = w) := by
  have hcap := BinaryWriter.ensureSize_capacity w n
  obtain ⟨m, hm⟩ := BinaryWriter.ensureSize_data w n
  refine ⟨BinaryWriter.ensureSize_fst w n, ?_, ?_,
    BinaryWriter.ensureSize_cursor w n, BinaryWriter.ensureSize_maxCursor w n,
    ?_, ?_, ?_⟩
  · unfold BinaryWriter.capacity
    omega
  · unfold BinaryWriter.capacity at hcap ⊢
    omega
  · rw [hm]
    exact List.take_left' rfl
  · intro hInv
    unfold BinaryWriter.Inv at hInv
    rw [BinaryWriter.toUint8Array, BinaryWriter.toUint8Array,
      BinaryWriter.ensureSize_maxCursor, hm,
      List.take_append_of_le_length (by omega)]
  · intro hle
    unfold BinaryWriter.capacity at hle
    rw [BinaryWriter.ensureSize_snd, if_neg (by omega)]

/-- C9 witness. -/
theorem C9_ensureSize_witness :
    (BinaryWriter.new 4).Inv
  ∧ 2 ≤ (BinaryWriter.new 4).capacity
  ∧ ((BinaryWriter.new 4).ensureSize 2).2.toUint8Array
      = (BinaryWriter.new 4).toUint8Array
  ∧ ((BinaryWriter.new 4).ensureSize 2).2 = BinaryWriter.new 4 := by
  have h := C9_ensureSize (BinaryWriter.new 4) 2
  have hInv : (BinaryWriter.new 4).Inv := by
    unfold BinaryWriter.Inv
    decide
  exact ⟨hInv, by decide, h.2.2.2.2.2.2.1 hInv, h.2.2.2.2.2.2.2 (by decide)⟩

/-- C10: the invariant `capacity >= maxCursor` holds at construction and is
preserved by every public operation; capacity never shrinks under any of
them; and every write operation (seek acts as a zero-byte write) leaves
`maxCursor = max (previous maxCursor) (cursor after the write)`. -/
theorem C10_invariants :
    (∀ n, (BinaryWriter.new n).Inv)
  ∧ (∀ offset, WriteOpOk (fun w => w.seek offset))
  ∧ (∀ (w : BinaryWriter) (n : Nat),
      (w.Inv → (w.ensureSize n).2.Inv) ∧ w.capacity ≤ (w.ensureSize n).2.capacity)
  ∧ (∀ v : Int, WriteOpOk (fun w => w.writeUInt8 v))
  ∧ (∀ v : Int, WriteOpOk (fun w => w.writeInt8 v))
  ∧ (∀ v : Int, WriteOpOk (fun w => w.writeUInt16LE v))
  ∧ (∀ v : Int, WriteOpOk (fun w => w.writeUInt16BE v))
  ∧ (∀ v : Int, WriteOpOk (fun w => w.writeInt16LE v))
  ∧ (∀ v : Int, WriteOpOk (fun w => w.writeInt16BE v))
  ∧ (∀ v : Int, WriteOpOk (fun w => w.writeUInt32LE v))
  ∧ (∀ v : Int, WriteOpOk (fun w => w.writeUInt32BE v))
  ∧ (∀ v : Int, WriteOpOk (fun w => w.writeInt32LE v))
  ∧ (∀ v : Int, WriteOpOk (fun w => w.writeInt32BE v))
  ∧ (∀ v : Int, WriteOpOk (fun w => w.writeUInt64LE v))
  ∧ (∀ v : Int, WriteOpOk (fun w => w.writeUInt64BE v))
  ∧ (∀ v : Int, WriteOpOk (fun w => w.writeInt64LE v))
  ∧ (∀ v : Int, WriteOpOk (fun w => w.writeInt64BE v))
  ∧ (∀ v : Int, WriteOpOk (fun w => w.writeFloat32LE v))
  ∧ (∀ v : Int, WriteOpOk (fun w => w.writeFloat32BE v))
  ∧ (∀ v : Int, WriteOpOk (fun w => w.writeFloat64LE v))
  ∧ (∀ v : Int, WriteOpOk (fun w => w.writeFloat64BE v))
  ∧ (∀ v : Int, WriteOpOk (fun w => w.writeFloat32 v))
  ∧ (∀ v : Int, WriteOpOk (fun w => w.writeFloat64 v))
  ∧ (∀ (v : Int) (kind : NumKind) (endian : Endian),
      WriteOpOk (fun w => w.write v kind endian))
  ∧ (∀ s : String, WriteOpOk (fun w => w.writeString s))
  ∧ (∀ bs : List Nat, WriteOpOk (fun w => w.writeBytes bs))
  ∧ (∀ s : String, WriteOpOk (fun w => w.writeChars s)) := by
  refine ⟨?_, ?_, ?_, fun v => BinaryWriter.writeRaw_ok _,
    fun v => BinaryWriter.writeRaw_ok _, fun v => BinaryWriter.writeRaw_ok _,
    fun v => BinaryWriter.writeRaw_ok _, fun v => BinaryWriter.writeRaw_ok _,
    fun v => BinaryWriter.writeRaw_ok _, fun v => BinaryWriter.writeRaw_ok _,
    fun v => BinaryWriter.writeRaw_ok _, fun v => BinaryWriter.writeRaw_ok _,
    fun v => BinaryWriter.writeRaw_ok _, fun v => BinaryWriter.writeRaw_ok _,
    fun v => BinaryWriter.writeRaw_ok _, fun v => BinaryWriter.writeRaw_ok _,
    fun v => BinaryWriter.writeRaw_ok _, fun v => BinaryWriter.writeRaw_ok _,
    fun v => BinaryWriter.writeRaw_ok _, fun v => BinaryWriter.writeRaw_ok _,
    fun v => BinaryWriter.writeRaw_ok _, fun v => BinaryWriter.writeRaw_ok _,
    fun v => BinaryWriter.writeRaw_ok _, ?_,
    fun s => BinaryWriter.writeRaw_ok _, fun bs => BinaryWriter.writeRaw_ok _,
    fun s => BinaryWriter.writeRaw_ok _⟩
  · intro n
    unfold BinaryWriter.Inv BinaryWriter.new
    simp
  · intro offset w
    exact ⟨BinaryWriter.seek_inv w offset, BinaryWriter.seek_length_mono w offset,
      by rw [BinaryWriter.seek_maxCursor, BinaryWriter.seek_cursor]⟩
  · intro w n
    constructor
    · intro hInv
      unfold BinaryWriter.Inv at hInv ⊢
      have hcap := BinaryWriter.ensureSize_capacity w n
      rw [BinaryWriter.ensureSize_maxCursor, hcap]
      omega
    · unfold BinaryWriter.capacity
      rw [BinaryWriter.ensureSize_capacity w n]
      omega
  · intro v kind endian
    cases kind <;> cases endian <;> exact BinaryWriter.writeRaw_ok _

/-- C10 witness. -/
theorem C10_invariants_witness :
    (BinaryWriter.new 2).Inv ∧ ((BinaryWriter.new 2).writeUInt8 1).Inv := by
  have h := C10_invariants
  have hInv : (BinaryWriter.new 2).Inv := h.1 2
  exact ⟨hInv, (h.2.2.2.1 1 (BinaryWriter.new 2)).1 hInv⟩

/-- C8: every fixed-width read succeeds exactly when `cursor + width` stays
within the source length, and fails with an out-of-bounds error otherwise;
`readBytes` with a positive length behaves the same way. -/
theorem C8_bounds (r : BinaryReader) :
    ((r.readUInt8.isSome = true) ↔ r.cursor + 1 ≤ r.data.length)
  ∧ ((r.readInt8.isSome = true) ↔ r.cursor + 1 ≤ r.data.length)
  ∧ ((r.readUInt16LE.isSome = true) ↔ r.cursor + 2 ≤ r.data.length)
  ∧ ((r.readUInt16BE.isSome = true) ↔ r.cursor + 2 ≤ r.data.length)
  ∧ ((r.readInt16LE.isSome = true) ↔ r.cursor + 2 ≤ r.data.length)
  ∧ ((r.readInt16BE.isSome = true) ↔ r.cursor + 2 ≤ r.data.length)
  ∧ ((r.readUInt32LE.isSome = true) ↔ r.cursor + 4 ≤ r.data.length)
  ∧ ((r.readUInt32BE.isSome = true) ↔ r.cursor + 4 ≤ r.data.length)
  ∧ ((r.readInt32LE.isSome = true) ↔ r.cursor + 4 ≤ r.data.length)
  ∧ ((r.readInt32BE.isSome = true) ↔ r.cursor + 4 ≤ r.data.length)
  ∧ ((r.readUInt64LE.isSome = true) ↔ r.cursor + 8 ≤ r.data.length)
  ∧ ((r.readUInt64BE.isSome = true) ↔ r.cursor + 8 ≤ r.data.length)
  ∧ ((r.readInt64LE.isSome = true) ↔ r.cursor + 8 ≤ r.data.length)
  ∧ ((r.readInt64BE.isSome = true) ↔ r.cursor + 8 ≤ r.data.length)
  ∧ ((r.readFloat32LE.isSome = true) ↔ r.cursor + 4 ≤ r.data.length)
  ∧ ((r.readFloat32BE.isSome = true) ↔ r.cursor + 4 ≤ r.data.length)
  ∧ ((r.readFloat64LE.isSome = true) ↔ r.cursor + 8 ≤ r.data.length)
  ∧ ((r.readFloat64BE.isSome = true) ↔ r.cursor + 8 ≤ r.data.length)
  ∧ ((r.readFloat32.isSome = true) ↔ r.cursor + 4 ≤ r.data.length)
  ∧ ((r.readFloat64.isSome = true) ↔ r.cursor + 8 ≤ r.data.length)
  ∧ (∀ n, 1 ≤ n →
      (((r.readBytes n).isSome = true) ↔ r.cursor + n ≤ r.data.length)) := by
  have hgen := BinaryReader.readRaw_isSome r
  refine ⟨?_, ?_, ?_, ?_, ?_, ?_, ?_, ?_, ?_, ?_, ?_, ?_, ?_, ?_, ?_, ?_, ?_,
    ?_, ?_, ?_, ?_⟩
  · simpa only [BinaryReader.readUInt8, isSome_map] using hgen 1
  · simpa only [BinaryReader.readInt8, isSome_map] using hgen 1
  · simpa only [BinaryReader.readUInt16LE, isSome_map] using hgen 2
  · simpa only [BinaryReader.readUInt16BE, isSome_map] using hgen 2
  · simpa only [BinaryReader.readInt16LE, isSome_map] using hgen 2
  · simpa only [BinaryReader.readInt16BE, isSome_map] using hgen 2
  · simpa only [BinaryReader.readUInt32LE, isSome_map] using hgen 4
  · simpa only [BinaryReader.readUInt32BE, isSome_map] using hgen 4
  · simpa only [BinaryReader.readInt32LE, isSome_map] using hgen 4
  · simpa only [BinaryReader.readInt32BE, isSome_map] using hgen 4
  · simpa only [BinaryReader.readUInt64LE, isSome_map] using hgen 8
  · simpa only [BinaryReader.readUInt64BE, isSome_map] using hgen 8
  · simpa only [BinaryReader.readInt64LE, isSome_map] using hgen 8
  · simpa only [BinaryReader.readInt64BE, isSome_map] using hgen 8
  · simpa only [BinaryReader.readFloat32LE, isSome_map] using hgen 4
  · simpa only [BinaryReader.readFloat32BE, isSome_map] using hgen 4
  · simpa only [BinaryReader.readFloat64LE, isSome_map] using hgen 8
  · simpa only [BinaryReader.readFloat64BE, isSome_map] using hgen 8
  · simpa only [BinaryReader.readFloat32, BinaryReader.readFloat32BE,
      isSome_map] using hgen 4
  · simpa only [BinaryReader.readFloat64, BinaryReader.readFloat64BE,
      isSome_map] using hgen 8
  · intro n hn
    rw [BinaryReader.readBytes, if_neg (by omega)]
    exact hgen n

/-- C8 witness. -/
theorem C8_bounds_witness :
    1 ≤ 2
  ∧ (((BinaryReader.new [0, 0, 0]).readBytes 2).isSome = true ↔
      (BinaryReader.new [0, 0, 0]).cursor + 2
        ≤ (BinaryReader.new [0, 0, 0]).data.length) := by
  refine ⟨by norm_num, ?_⟩
  exact (C8_bounds
    (BinaryReader.new [0, 0, 0])).2.2.2.2.2.2.2.2.2.2.2.2.2.2.2.2.2.2.2.2
    2 (by norm_num)

theorem length_reverse_intToBytesLE (k : Nat) (v : Int) :
    ((intToBytesLE k v).reverse).length = k := by
  rw [List.length_reverse]
  exact length_intToBytesLE k v

theorem ofBytesLE_reverse_reverse (k : Nat) (v : Int) (h0 : 0 ≤ v)
    (h1 : v < 2 ^ (8 * k)) :
    (ofBytesLE ((intToBytesLE k v).reverse).reverse : Int) = v := by
  rw [List.reverse_reverse]
  exact ofBytesLE_intToBytesLE k v h0 h1

theorem toSigned_reverse_reverse (k : Nat) (hk : 0 < k) (v : Int)
    (h0 : -2 ^ (8 * k - 1) ≤ v) (h1 : v < 2 ^ (8 * k - 1)) :
    toSigned k (ofBytesLE ((intToBytesLE k v).reverse).reverse) = v := by
  rw [List.reverse_reverse]
  exact toSigned_intToBytesLE k hk v h0 h1

theorem range_conv_u (m k : Nat) (h : 8 * k = m) (v : Int) (hv : v < 2 ^ m) :
    v < 2 ^ (8 * k) := by
  rw [h]
  exact hv

theorem range_conv_s (m k : Nat) (h : 8 * k - 1 = m) (v : Int)
    (h0 : -2 ^ m ≤ v) (h1 : v < 2 ^ m) :
    -2 ^ (8 * k - 1) ≤ v ∧ v < 2 ^ (8 * k - 1) := by
  rw [h]
  exact ⟨h0, h1⟩

theorem read_unsigned_le_shape (w : BinaryWriter) (k : Nat) (v : Int)
    (h0 : 0 ≤ v) (h1 : v < 2 ^ (8 * k)) :
    ((((BinaryReader.new ((w.writeRaw (intToBytesLE k v)).toUint8Array)).seek
        w.cursor).readRaw k).map
        (fun p => ((ofBytesLE p.1 : Int), p.2))).map Prod.fst = some v := by
  rw [writeRead_core' w (intToBytesLE k v) k (length_intToBytesLE k v)]
  show some ((ofBytesLE (intToBytesLE k v) : Nat) : Int) = some v
  rw [ofBytesLE_intToBytesLE k v h0 h1]

theorem read_unsigned_be_shape (w : BinaryWriter) (k : Nat) (v : Int)
    (h0 : 0 ≤ v) (h1 : v < 2 ^ (8 * k)) :
    ((((BinaryReader.new ((w.writeRaw ((intToBytesLE k v).reverse)).toUint8Array)).seek
        w.cursor).readRaw k).map
        (fun p => ((ofBytesLE p.1.reverse : Int), p.2))).map Prod.fst = some v := by
  rw [writeRead_core' w ((intToBytesLE k v).reverse) k
    (length_reverse_intToBytesLE k v)]
  show some ((ofBytesLE (intToBytesLE k v).reverse.reverse : Nat) : Int) = some v
  rw [ofBytesLE_reverse_reverse k v h0 h1]

theorem read_signed_le_shape (w : BinaryWriter) (k : Nat) (hk : 0 < k) (v : Int)
    (h0 : -2 ^ (8 * k - 1) ≤ v) (h1 : v < 2 ^ (8 * k - 1)) :
    ((((BinaryReader.new ((w.writeRaw (intToBytesLE k v)).toUint8Array)).seek
        w.cursor).readRaw k).map
        (fun p => (toSigned k (ofBytesLE p.1), p.2))).map Prod.fst = some v := by
  rw [writeRead_core' w (intToBytesLE k v) k (length_intToBytesLE k v)]
  show some (toSigned k (ofBytesLE (intToBytesLE k v))) = some v
  rw [toSigned_intToBytesLE k hk v h0 h1]

theorem read_signed_be_shape (w : BinaryWriter) (k : Nat) (hk : 0 < k) (v : Int)
    (h0 : -2 ^ (8 * k - 1) ≤ v) (h1 : v < 2 ^ (8 * k - 1)) :
    ((((BinaryReader.new ((w.writeRaw ((intToBytesLE k v).reverse)).toUint8Array)).seek
        w.cursor).readRaw k).map
        (fun p => (toSigned k (ofBytesLE p.1.reverse), p.2))).map Prod.fst = some v := by
  rw [writeRead_core' w ((intToBytesLE k v).reverse) k
    (length_reverse_intToBytesLE k v)]
  show some (toSigned k (ofBytesLE (intToBytesLE k v).reverse.reverse)) = some v
  rw [toSigned_reverse_reverse k hk v h0 h1]

/-- C5: for every supported (kind, endianness) pair of the generic
dispatchers and every in-range value, and likewise for each of the four named
64-bit operations, writing the value and then reading it back at the same
offset (with the reader of the same kind and endianness over the writer's
snapshot) returns the original value. -/
theorem C5_roundtrip :
    (∀ (w : BinaryWriter) (kind : NumKind) (endian : Endian) (v : Int),
      InRange kind v →
      (((BinaryReader.new ((w.write v kind endian).toUint8Array)).seek
          w.cursor).read kind endian).map Prod.fst = some v)
  ∧ (∀ (w : BinaryWriter) (v : Int), 0 ≤ v ∧ v < 2 ^ 64 →
      (((BinaryReader.new ((w.writeUInt64LE v).toUint8Array)).seek
          w.cursor).readUInt64LE).map Prod.fst = some v)
  ∧ (∀ (w : BinaryWriter) (v : Int), 0 ≤ v ∧ v < 2 ^ 64 →
      (((BinaryReader.new ((w.writeUInt64BE v).toUint8Array)).seek
          w.cursor).readUInt64BE).map Prod.fst = some v)
  ∧ (∀ (w : BinaryWriter) (v : Int), -2 ^ 63 ≤ v ∧ v < 2 ^ 63 →
      (((BinaryReader.new ((w.writeInt64LE v).toUint8Array)).seek
          w.cursor).readInt64LE).map Prod.fst = some v)
  ∧ (∀ (w : BinaryWriter) (v : Int), -2 ^ 63 ≤ v ∧ v < 2 ^ 63 →
      (((BinaryReader.new ((w.writeInt64BE v).toUint8Array)).seek
          w.cursor).readInt64BE).map Prod.fst = some v) := by
  refine ⟨?_, ?_, ?_, ?_, ?_⟩
  · intro w kind endian v hv
    cases kind <;> cases endian <;>
      simp only [BinaryWriter.write, BinaryReader.read,
        BinaryWriter.writeUInt8, BinaryWriter.writeInt8,
        BinaryWriter.writeUInt16LE, BinaryWriter.writeUInt16BE,
        BinaryWriter.writeInt16LE, BinaryWriter.writeInt16BE,
        BinaryWriter.writeUInt32LE, BinaryWriter.writeUInt32BE,
        BinaryWriter.writeInt32LE, BinaryWriter.writeInt32BE,
        BinaryWriter.writeFloat32LE, BinaryWriter.writeFloat32BE,
        BinaryWriter.writeFloat64LE, BinaryWriter.writeFloat64BE,
        BinaryReader.readUInt8, BinaryReader.readInt8,
        BinaryReader.readUInt16LE, BinaryReader.readUInt16BE,
        BinaryReader.readInt16LE, BinaryReader.readInt16BE,
        BinaryReader.readUInt32LE, BinaryReader.readUInt32BE,
        BinaryReader.readInt32LE, BinaryReader.readInt32BE,
        BinaryReader.readFloat32LE, BinaryReader.readFloat32BE,
        BinaryReader.readFloat64LE, BinaryReader.readFloat64BE]
    · exact read_unsigned_le_shape w 4 v hv.1
        (range_conv_u 32 4 (by norm_num) v hv.2)
    · exact read_unsigned_be_shape w 4 v hv.1
        (range_conv_u 32 4 (by norm_num) v hv.2)
    · exact read_unsigned_le_shape w 2 v hv.1
        (range_conv_u 16 2 (by norm_num) v hv.2)
    · exact read_unsigned_be_shape w 2 v hv.1
        (range_conv_u 16 2 (by norm_num) v hv.2)
    · obtain ⟨h0, h1⟩ := range_conv_s 31 4 (by norm_num) v hv.1 hv.2
      exact read_signed_le_shape w 4 (by norm_num) v h0 h1
    · obtain ⟨h0, h1⟩ := range_conv_s 31 4 (by norm_num) v hv.1 hv.2
      exact read_signed_be_shape w 4 (by norm_num) v h0 h1
    · obtain ⟨h0, h1⟩ := range_conv_s 15 2 (by norm_num) v hv.1 hv.2
      exact read_signed_le_shape w 2 (by norm_num) v h0 h1
    · obtain ⟨h0, h1⟩ := range_conv_s 15 2 (by norm_num) v hv.1 hv.2
      exact read_signed_be_shape w 2 (by norm_num) v h0 h1
    · exact read_unsigned_le_shape w 4 v hv.1
        (range_conv_u 32 4 (by norm_num) v hv.2)
    · exact read_unsigned_be_shape w 4 v hv.1
        (range_conv_u 32 4 (by norm_num) v hv.2)
    · exact read_unsigned_le_shape w 8 v hv.1
        (range_conv_u 64 8 (by norm_num) v hv.2)
    · exact read_unsigned_be_shape w 8 v hv.1
        (range_conv_u 64 8 (by norm_num) v hv.2)
    · exact read_unsigned_le_shape w 1 v hv.1
        (range_conv_u 8 1 (by norm_num) v hv.2)
    · exact read_unsigned_le_shape w 1 v hv.1
        (range_conv_u 8 1 (by norm_num) v hv.2)
    · obtain ⟨h0, h1⟩ := range_conv_s 7 1 (by norm_num) v hv.1 hv.2
      exact read_signed_le_shape w 1 (by norm_num) v h0 h1
    · obtain ⟨h0, h1⟩ := range_conv_s 7 1 (by norm_num) v hv.1 hv.2
      exact read_signed_le_shape w 1 (by norm_num) v h0 h1
  · intro w v hv
    simp only [BinaryWriter.writeUInt64LE, BinaryReader.readUInt64LE]
    exact read_unsigned_le_shape w 8 v hv.1
      (range_conv_u 64 8 (by norm_num) v hv.2)
  · intro w v hv
    simp only [BinaryWriter.writeUInt64BE, BinaryReader.readUInt64BE]
    exact read_unsigned_be_shape w 8 v hv.1
      (range_conv_u 64 8 (by norm_num) v hv.2)
  · intro w v hv
    simp only [BinaryWriter.writeInt64LE, BinaryReader.readInt64LE]
    obtain ⟨h0, h1⟩ := range_conv_s 63 8 (by norm_num) v hv.1 hv.2
    exact read_signed_le_shape w 8 (by norm_num) v h0 h1
  · intro w v hv
    simp only [BinaryWriter.writeInt64BE, BinaryReader.readInt64BE]
    obtain ⟨h0, h1⟩ := range_conv_s 63 8 (by norm_num) v hv.1 hv.2
    exact read_signed_be_shape w 8 (by norm_num) v h0 h1

/-- C5 witness. -/
theorem C5_roundtrip_witness :
    InRange .u16 0x1234
  ∧ (((BinaryReader.new (((BinaryWriter.new 0).write 0x1234 .u16 .be).toUint8Array)).seek
        (BinaryWriter.new 0).cursor).read .u16 .be).map Prod.fst = some 0x1234
  ∧ (-2 ^ 63 ≤ (-2 : Int) ∧ (-2 : Int) < 2 ^ 63)
  ∧ (((BinaryReader.new (((BinaryWriter.new 0).writeInt64LE (-2)).toUint8Array)).seek
        (BinaryWriter.new 0).cursor).readInt64LE).map Prod.fst = some (-2) := by
  refine ⟨⟨by norm_num, by norm_num⟩, ?_, ⟨by norm_num, by norm_num⟩, ?_⟩
  · exact C5_roundtrip.1 (BinaryWriter.new 0) .u16 .be 0x1234
      ⟨by norm_num, by norm_num⟩
  · exact C5_roundtrip.2.2.2.1 (BinaryWriter.new 0) (-2)
      ⟨by norm_num, by norm_num⟩

end BinarySeeker
